import Mathlib

/-!
# Verification of the `indicate` adapter core (cargo-indicate)

Shallow embedding of the core of `src/indicate/src/adapter.rs` and
`src/indicate/src/advisory.rs`, together with models of the external
collaborators those files call into (`rustsec` database queries, `chrono`
date arithmetic, `cargo_metadata` metadata, `git_url_parse` URL parsing)
and of the repository's vertex union (`vertex.rs`, which is referenced by
the adapter but whose file is not part of the sources at hand; it is
modelled from the specification).

Rust panics (`panic!`, `unwrap`, `expect`, `unreachable!`) are modelled by
`Option`: a `none` result marks a fatal abort of the resolution step.
-/

namespace Indicate

/-! ## Severity (model of `cvss::Severity`)

Model of the external `cvss::Severity` enum: five ordered levels with the
derived order `None < Low < Medium < High < Critical`, displayed in
lowercase. -/

inductive Sev where
  | nNone
  | low
  | medium
  | high
  | critical
  deriving DecidableEq, Repr

def Sev.rank : Sev → Nat
  | .nNone => 0
  | .low => 1
  | .medium => 2
  | .high => 3
  | .critical => 4

def Sev.str : Sev → String
  | .nNone => "none"
  | .low => "low"
  | .medium => "medium"
  | .high => "high"
  | .critical => "critical"

/-! ## Advisories (model of `rustsec::Advisory` and its metadata)

Model of the external `rustsec::Advisory` record, with the nested
`metadata` fields (`id`, `title`, `description`, `package`, `withdrawn`)
flattened into one structure the way the adapter reads them. Dates are
date-only triples, as in `rustsec::advisory::Date`. -/

structure AdvDate where
  year : Nat
  month : Nat
  day : Nat
  deriving DecidableEq, Repr

structure Affected where
  arch : List String
  os : List String
  functions : List (String × List String)
  deriving DecidableEq, Repr

structure Advisory where
  id : String
  package : String
  title : String
  description : String
  date : AdvDate
  withdrawn : Option AdvDate
  affected : Option Affected
  severity : Option Sev
  patched : List String
  unaffected : List String
  deriving DecidableEq, Repr

/-! ## Advisory database queries (model of `rustsec::database::Query`)

Model of the external `rustsec` query builder used by
`AdvisoryClient::all_advisories_for_package`.  Fields not exercised by
that function (collection, id, year, informational, version ranges) are
omitted; their filters are identical across the two queries the client
issues, so they do not affect any relation between those queries.
`rustsec` omits withdrawn advisories from query results unless the
`withdrawn` field is set; `withdrawn(b)` restricts results to advisories
whose withdrawal status equals `b`. -/

structure Query where
  qPackageName : Option String
  qTargetArch : Option String
  qTargetOs : Option String
  qSeverity : Option Sev
  qWithdrawn : Option Bool
  deriving DecidableEq, Repr

def Query.new : Query := ⟨none, none, none, none, none⟩

def Query.package_name (q : Query) (n : String) : Query :=
  ⟨some n, q.qTargetArch, q.qTargetOs, q.qSeverity, q.qWithdrawn⟩

def Query.target_arch (q : Query) (a : String) : Query :=
  ⟨q.qPackageName, some a, q.qTargetOs, q.qSeverity, q.qWithdrawn⟩

def Query.target_os (q : Query) (o : String) : Query :=
  ⟨q.qPackageName, q.qTargetArch, some o, q.qSeverity, q.qWithdrawn⟩

def Query.severity (q : Query) (s : Sev) : Query :=
  ⟨q.qPackageName, q.qTargetArch, q.qTargetOs, some s, q.qWithdrawn⟩

def Query.withdrawn (q : Query) (b : Bool) : Query :=
  ⟨q.qPackageName, q.qTargetArch, q.qTargetOs, q.qSeverity, some b⟩

def Query.matches (q : Query) (a : Advisory) : Bool :=
  (match q.qPackageName with
   | some n => a.package == n
   | none => true) &&
  (match q.qSeverity with
   | some minSev =>
     match a.severity with
     | some s => minSev.rank ≤ s.rank
     | none => false
   | none => true) &&
  (match q.qTargetArch with
   | some ar =>
     match a.affected with
     | some aff => aff.arch.isEmpty || aff.arch.contains ar
     | none => true
   | none => true) &&
  (match q.qTargetOs with
   | some o =>
     match a.affected with
     | some aff => aff.os.isEmpty || aff.os.contains o
     | none => true
   | none => true) &&
  (match q.qWithdrawn with
   | some w => w == a.withdrawn.isSome
   | none => !a.withdrawn.isSome)

/-- Model of the external `rustsec::Database::query`: the database is the
list of its advisories and a query selects the ones it matches. -/
def Database.query (db : List Advisory) (q : Query) : List Advisory :=
  db.filter q.matches

/-- The query that `AdvisoryClient::all_advisories_for_package`
(src/indicate/src/advisory.rs, lines 67-79) builds before running it:
`Query::new().package_name(name)`, then `target_arch`, `target_os` and
`severity` applied only when the corresponding option is present. -/
def AdvisoryClient.packageQuery (name : String) (arch os : Option String)
    (min_severity : Option Sev) : Query :=
  let query := Query.new.package_name name
  let query := match arch with
    | some a => query.target_arch a
    | none => query
  let query := match os with
    | some o => query.target_os o
    | none => query
  let query := match min_severity with
    | some s => query.severity s
    | none => query
  query

/-- `AdvisoryClient::all_advisories_for_package`
(src/indicate/src/advisory.rs, lines 59-90): run the package query, and
when `include_withdrawn` is set append the results of the same query
restricted to withdrawn advisories. -/
def AdvisoryClient.all_advisories_for_package (db : List Advisory)
    (name : String) (include_withdrawn : Bool) (arch os : Option String)
    (min_severity : Option Sev) : List Advisory :=
  let query := AdvisoryClient.packageQuery name arch os min_severity
  let res := Database.query db query
  if include_withdrawn then
    res ++ Database.query db (query.withdrawn include_withdrawn)
  else
    res

/-! ## Calendar arithmetic (model of `chrono` date handling)

The adapter converts the date-only advisory dates into Unix timestamps via
`chrono`: `NaiveDate::from_ymd_opt(y, m, d)`, `.and_hms_opt(0, 0, 0)`,
`.timestamp()` (src/indicate/src/adapter.rs, lines 456-492).  For a valid
proleptic-Gregorian date, `chrono` computes the day number from the
Common Era as `365 * (y - 1) + (y - 1) / 4 - (y - 1) / 100 + (y - 1) / 400
+ ordinal`, and the midnight timestamp as `86400 * (days from CE - 719163)`
(the CE day number of 1970-01-01 being 719163).  `chrono`'s astronomically
large year bound is not modelled; advisory years are small. -/

def isLeap (y : Nat) : Bool :=
  (y % 4 == 0 && y % 100 != 0) || (y % 400 == 0)

def daysInYear (y : Nat) : Nat :=
  if isLeap y then 366 else 365

def daysInMonth (y m : Nat) : Nat :=
  match m with
  | 2 => if isLeap y then 29 else 28
  | 4 => 30
  | 6 => 30
  | 9 => 30
  | 11 => 30
  | _ => 31

/-- Days in the months strictly before month `m` of a common year. -/
def cumDays (m : Nat) : Nat :=
  match m with
  | 1 => 0
  | 2 => 31
  | 3 => 59
  | 4 => 90
  | 5 => 120
  | 6 => 151
  | 7 => 181
  | 8 => 212
  | 9 => 243
  | 10 => 273
  | 11 => 304
  | _ => 334

/-- Ordinal (1-based day of year) of a date, as `chrono` derives it from
its cumulative month tables. -/
def dayOfYear (y m d : Nat) : Nat :=
  cumDays m + (if 2 < m ∧ isLeap y then 1 else 0) + d

/-- Leap years in `[1, k]` of the proleptic Gregorian calendar. -/
def leapsUpTo (k : Nat) : Nat :=
  k / 4 - k / 100 + k / 400

/-- Day number from the Common Era (0001-01-01 is day 1), as computed by
`chrono::Datelike::num_days_from_ce` for non-negative years. -/
def daysFromCE (y m d : Nat) : Nat :=
  365 * (y - 1) + leapsUpTo (y - 1) + dayOfYear y m d

/-- The validity check `chrono`'s `from_ymd_opt` performs: a month from
1 to 12 and a day from 1 to the length of that month. -/
def validYmd (y m d : Nat) : Bool :=
  decide (1 ≤ m) && decide (m ≤ 12) && decide (1 ≤ d) &&
    decide (d ≤ daysInMonth y m)

/-- Model of the composition the adapter performs with `chrono`:
`from_ymd_opt` (validity check) then `and_hms_opt(0,0,0)` then
`timestamp()`.  `none` models the `expect` panic on an invalid date. -/
def chronoMidnightTimestamp (y m d : Nat) : Option Int :=
  if validYmd y m d then
    some (((daysFromCE y m d : Int) - 719163) * 86400)
  else
    none

/-- Number of days from 1970-01-01 to the given date, counted naively:
whole years since 1970, then whole months of the current year, then the
days of the current month.  This is the specification-side reading of
"the date-only date at 00:00:00 UTC" as an instant. -/
def daysSinceUnixEpoch (y m d : Nat) : Nat :=
  ((List.range (y - 1970)).map (fun i => daysInYear (1970 + i))).sum +
    ((List.range (m - 1)).map (fun j => daysInMonth y (j + 1))).sum +
    (d - 1)

/-- The Unix timestamp of a date-only date at 00:00:00 UTC (specification
reading). -/
def unixMidnightUTC (y m d : Nat) : Int :=
  86400 * (daysSinceUnixEpoch y m d : Int)

/-! ## Packages and metadata (model of `cargo_metadata` input data)

Model of the `cargo_metadata` records the adapter reads: a package
(identity, name, version, optional license, optional repository URL), the
resolved dependency graph (`resolve`: nodes with their direct dependency
ids and an optional root id), and the surrounding metadata. -/

structure Pkg where
  id : String
  name : String
  version : String
  license : Option String
  repository : Option String
  deriving DecidableEq, Repr

structure ResolveNode where
  id : String
  dependencies : List String
  deriving DecidableEq, Repr

structure Resolve where
  nodes : List ResolveNode
  root : Option String
  deriving DecidableEq, Repr

structure Metadata where
  packages : List Pkg
  resolve : Option Resolve
  deriving DecidableEq, Repr

/-- Model of the external `cargo_metadata::Metadata::root_package`: with
resolution data present, look the root id up among the packages (the
workspace fallback used when `resolve` is absent is not modelled; the
adapter requires `resolve` anyway). -/
def Metadata.rootPackage (md : Metadata) : Option Pkg :=
  match md.resolve with
  | some r =>
    match r.root with
    | some rootId => md.packages.find? (fun p => p.id == rootId)
    | none => none
  | none => none

/-! ## Identity maps (`PackageMap`, `DirectDependencyMap`)

The Rust code stores both maps as `HashMap`s keyed by `PackageId`
(src/indicate/src/adapter.rs, lines 34-40).  They are modelled as
association lists where insertion prepends (so a later insert for the
same key shadows an earlier one, like `HashMap::insert`), and lookup
takes the most recent binding.  The maps are only ever looked up, never
iterated, so the list order carries no other meaning. -/

def mapInsert {α : Type} (m : List (String × α)) (k : String) (v : α) :
    List (String × α) :=
  (k, v) :: m

def mapLookup {α : Type} (m : List (String × α)) (k : String) : Option α :=
  match m with
  | [] => none
  | (k', v) :: rest => if k' = k then some v else mapLookup rest k

abbrev PackageMap : Type := List (String × Pkg)

abbrev DirectDependencyMap : Type := List (String × List String)

/-- `parse_metadata` (src/indicate/src/adapter.rs, lines 44-71): build the
package map from the package list and the direct-dependency map from the
resolved nodes.  `none` models the `expect("No nodes found!")` panic when
resolution data is absent. -/
def parse_metadata (md : Metadata) :
    Option (PackageMap × DirectDependencyMap) :=
  match md.resolve with
  | none => none
  | some r =>
    let packages := md.packages.foldl
      (fun m p => mapInsert m p.id p) []
    let direct_dependencies := r.nodes.foldl
      (fun m n => mapInsert m n.id n.dependencies) []
    some (packages, direct_dependencies)

/-! ## GitHub and geiger records

Modelled from the spec: the repository's `repo/github.rs` and `geiger.rs`
modules (and `vertex.rs`, below) are not among the sources at hand; the
record shapes follow §3 of the specification (rich repository with name,
counts and flags plus an optional owner login; user with login, creation
instant, follower count and optional email; unsafety statistics
decomposed into categories of counts). -/

structure GitHubRepo where
  url : String
  name : String
  stargazers_count : Nat
  forks_count : Nat
  open_issues_count : Nat
  has_issues : Bool
  archived : Bool
  fork : Bool
  owner : Option String
  deriving DecidableEq, Repr

structure GitHubUser where
  login : String
  created_at : Option Int
  followers : Nat
  email : Option String
  deriving DecidableEq, Repr

structure GeigerCount where
  safe : Nat
  unsafe_ : Nat
  deriving DecidableEq, Repr

/-- Modelled from the spec: `GeigerCount` totals its safe and unsafe
counts (`total = safe + unsafe`); `geiger.rs` is not among the sources. -/
def GeigerCount.total (c : GeigerCount) : Nat :=
  c.safe + c.unsafe_

/-- Modelled from the spec: `percentageUnsafe = unsafe / total` as a
fraction; `geiger.rs` is not among the sources. -/
def GeigerCount.percentageUnsafe (c : GeigerCount) : Rat :=
  (c.unsafe_ : Rat) / (GeigerCount.total c : Rat)

structure GeigerCategories where
  functions : GeigerCount
  exprs : GeigerCount
  item_impls : GeigerCount
  item_traits : GeigerCount
  methods : GeigerCount
  deriving DecidableEq, Repr

structure GeigerUnsafety where
  used : GeigerCategories
  unused : GeigerCategories
  forbids : Bool
  deriving DecidableEq, Repr

/-! ## The vertex union

Modelled from the spec: `vertex.rs` is not among the sources at hand.
§3/§9 of the specification describe the vertex model as a tagged union of
every entity kind with a per-variant narrowing operation (`as_package`,
`as_repository`, ...), each returning the payload only for its own
variant.  Coercion to `Repository` holds exactly for the generic variant,
so `as_repository` narrows only the generic variant; `as_webpage` exposes
the URL carried by either repository variant. -/

inductive Vertex where
  | Package (p : Pkg)
  | Repository (url : String)
  | GitHubRepository (r : GitHubRepo)
  | GitHubUser (u : GitHubUser)
  | Advisory (a : Advisory)
  | AffectedFunctionVersions (afv : String × List String)
  | GeigerUnsafety (g : GeigerUnsafety)
  | GeigerCategories (g : GeigerCategories)
  | GeigerCount (g : GeigerCount)
  deriving DecidableEq, Repr

def Vertex.as_package : Vertex → Option Pkg
  | .Package p => some p
  | _ => none

def Vertex.as_repository : Vertex → Option String
  | .Repository url => some url
  | _ => none

def Vertex.as_git_hub_repository : Vertex → Option GitHubRepo
  | .GitHubRepository r => some r
  | _ => none

def Vertex.as_git_hub_user : Vertex → Option Indicate.GitHubUser
  | .GitHubUser u => some u
  | _ => none

def Vertex.as_advisory : Vertex → Option Indicate.Advisory
  | .Advisory a => some a
  | _ => none

def Vertex.as_affected_function_versions :
    Vertex → Option (String × List String)
  | .AffectedFunctionVersions afv => some afv
  | _ => none

def Vertex.as_geiger_unsafety : Vertex → Option Indicate.GeigerUnsafety
  | .GeigerUnsafety g => some g
  | _ => none

def Vertex.as_geiger_categories : Vertex → Option Indicate.GeigerCategories
  | .GeigerCategories g => some g
  | _ => none

def Vertex.as_geiger_count : Vertex → Option Indicate.GeigerCount
  | .GeigerCount g => some g
  | _ => none

def Vertex.as_webpage : Vertex → Option String
  | .Repository url => some url
  | .GitHubRepository r => some r.url
  | _ => none

/-! ## Scalar values (model of `trustfall::FieldValue`)

Only the variants the adapter produces are modelled.  List values
produced by the adapter always hold strings, so they are modelled as
string lists.  `Float64` values (only `percentageUnsafe`) are modelled as
exact rationals. -/

inductive FieldValue where
  | null
  | str (s : String)
  | int (i : Int)
  | uint (u : Nat)
  | boolean (b : Bool)
  | float64 (q : Rat)
  | strList (l : List String)
  deriving DecidableEq, Repr

/-- Model of Rust's `str::contains` on string literals: some tail of the
haystack starts with the needle. -/
def strContains (s pat : String) : Bool :=
  s.data.tails.any (fun t => pat.data.isPrefixOf t)

/-! ## The URL → repository resolver -/

/-- Result of the external `git_url_parse::GitUrl::parse` on a URL: an
optional host, an optional owner and a name.  The parser itself is
external, so the resolver below is parameterized by it. -/
structure GitUrlParsed where
  host : Option String
  owner : Option String
  name : String
  deriving DecidableEq, Repr

/-- `IndicateAdapter::get_repository_from_url`
(src/indicate/src/adapter.rs, lines 297-332), parameterized by the
external URL parser and by the GitHub repository lookup of the client
(`GitHubClient::get_repository`, keyed by owner and name).  `none` models
the `panic!("repository {url} had no owner")` reached when the parsed
host is `github.com` but no owner was parsed. -/
def get_repository_from_url
    (parse : String → Option GitUrlParsed)
    (getRepo : String → String → Option GitHubRepo)
    (url : String) : Option Vertex :=
  if strContains url "github.com" then
    match parse url with
    | some gurl =>
      if gurl.host == some "github.com" then
        match gurl.owner with
        | some owner =>
          match getRepo owner gurl.name with
          | some fr => some (Vertex.GitHubRepository fr)
          | none => some (Vertex.Repository url)
        | none => none
      else
        some (Vertex.Repository url)
    | none => some (Vertex.Repository url)
  else
    some (Vertex.Repository url)

/-! ## The adapter: state and starting vertices -/

structure IndicateAdapter where
  metadata : Metadata
  packages : PackageMap
  direct_dependencies : DirectDependencyMap
  deriving Repr

/-- Construction of the adapter (`IndicateAdapter::new` via the builder):
the two maps are built once from the metadata by `parse_metadata` and are
immutable afterwards.  The builder lives in `adapter_builder.rs`; it wires
the `parse_metadata` output into the adapter fields as described in §3 of
the specification. -/
def IndicateAdapter.fromMetadata (md : Metadata) :
    Option IndicateAdapter :=
  (parse_metadata md).map (fun pd => ⟨md, pd.1, pd.2⟩)

/-- `IndicateAdapter::root_package` (src/indicate/src/adapter.rs, lines
147-151): the single root-package vertex; `none` models the
`expect("no root package found")` panic. -/
def IndicateAdapter.root_package (a : IndicateAdapter) :
    Option (List Vertex) :=
  (a.metadata.rootPackage).map (fun root => [Vertex.Package root])

/-- The shared id-to-vertex expansion: look every id up in the package
map and wrap it (`packages.get(id).unwrap()` then `Vertex::Package`,
collected; src/indicate/src/adapter.rs, lines 186-193 and 283-290).
`none` models the panic on a missing id. -/
def collectVertices (pkgs : PackageMap) (ids : List String) :
    Option (List Vertex) :=
  match ids with
  | [] => some []
  | id :: rest =>
    match mapLookup pkgs id with
    | none => none
    | some p => (collectVertices pkgs rest).map
        (fun l => Vertex.Package p :: l)

/-- `IndicateAdapter::dependencies` (src/indicate/src/adapter.rs, lines
155-196): all resolved node ids, the root id removed unless
`include_root`; each id resolved through the package map.  The
`#[cfg(test)]` sort is not part of the non-test build and is not
modelled. -/
def IndicateAdapter.dependencies (a : IndicateAdapter)
    (include_root : Bool) : Option (List Vertex) :=
  match a.metadata.resolve with
  | none => none
  | some dependency_graph =>
    let ids := dependency_graph.nodes.map (fun n => n.id)
    if include_root then
      collectVertices a.packages ids
    else
      match dependency_graph.root with
      | none => none
      | some root_id =>
        collectVertices a.packages (ids.filter (fun pid => pid != root_id))

/-- `resolve_starting_vertices` (src/indicate/src/adapter.rs, lines
338-357).  The `includeRoot` edge parameter is passed as an already
`as_bool`-converted optional; `none` models the `unwrap` panic on a
missing parameter, and an unknown edge name models the `unreachable!`
arm. -/
def IndicateAdapter.resolve_starting_vertices (a : IndicateAdapter)
    (edge_name : String) (includeRoot : Option Bool) :
    Option (List Vertex) :=
  match edge_name with
  | "RootPackage" => a.root_package
  | "Dependencies" =>
    match includeRoot with
    | some include_root => a.dependencies include_root
    | none => none
  | _ => none

/-- `IndicateAdapter::get_dependencies` (src/indicate/src/adapter.rs,
lines 270-293): the recorded direct-dependency ids of the package,
each resolved through the package map.  `none` models the panic when the
package id is not a key of the direct-dependency map or a dependency id
is not a key of the package map. -/
def IndicateAdapter.get_dependencies (packages : PackageMap)
    (direct_dependencies : DirectDependencyMap) (package_id : String) :
    Option (List Vertex) :=
  match mapLookup direct_dependencies package_id with
  | none => none
  | some dependency_ids => collectVertices packages dependency_ids

/-! ## Property resolution

`resolve_property` (src/indicate/src/adapter.rs, lines 359-605) maps each
context of the input stream to one scalar, 1:1 and order-preserving,
through a per-vertex closure chosen by the `(type, property)` pair.  The
per-vertex closure is modelled below; `none` models the panics: the
`unreachable!` of an unmapped pair, the `unwrap`/`expect` on a vertex of
the wrong variant, and the date-conversion `expect`s. -/

def resolvePropertyV (type_name property_name : String) (v : Vertex) :
    Option FieldValue :=
  match type_name, property_name with
  | "Package", "id" =>
    (v.as_package).map (fun s => FieldValue.str s.id)
  | "Package", "name" =>
    (v.as_package).map (fun s => FieldValue.str s.name)
  | "Package", "version" =>
    (v.as_package).map (fun s => FieldValue.str s.version)
  | "Package", "license" =>
    (v.as_package).map (fun s =>
      match s.license with
      | some l => FieldValue.str l
      | none => FieldValue.null)
  | "Webpage", "url" =>
    some (match v.as_webpage with
      | some url => FieldValue.str url
      | none => FieldValue.null)
  | "Repository", "url" =>
    some (match v.as_webpage with
      | some url => FieldValue.str url
      | none => FieldValue.null)
  | "GitHubRepository", "url" =>
    some (match v.as_webpage with
      | some url => FieldValue.str url
      | none => FieldValue.null)
  | "GitHubRepository", "name" =>
    (v.as_git_hub_repository).map (fun r => FieldValue.str r.name)
  | "GitHubRepository", "starsCount" =>
    (v.as_git_hub_repository).map (fun r =>
      FieldValue.uint r.stargazers_count)
  | "GitHubRepository", "forksCount" =>
    (v.as_git_hub_repository).map (fun r => FieldValue.uint r.forks_count)
  | "GitHubRepository", "openIssuesCount" =>
    (v.as_git_hub_repository).map (fun r =>
      FieldValue.uint r.open_issues_count)
  | "GitHubRepository", "hasIssues" =>
    (v.as_git_hub_repository).map (fun r => FieldValue.boolean r.has_issues)
  | "GitHubRepository", "archived" =>
    (v.as_git_hub_repository).map (fun r => FieldValue.boolean r.archived)
  | "GitHubRepository", "fork" =>
    (v.as_git_hub_repository).map (fun r => FieldValue.boolean r.fork)
  | "GitHubUser", "username" =>
    (v.as_git_hub_user).map (fun u => FieldValue.str u.login)
  | "GitHubUser", "unixCreatedAt" =>
    (v.as_git_hub_user).map (fun u =>
      match u.created_at with
      | some t => FieldValue.int t
      | none => FieldValue.null)
  | "GitHubUser", "followersCount" =>
    (v.as_git_hub_user).map (fun u => FieldValue.uint u.followers)
  | "GitHubUser", "email" =>
    (v.as_git_hub_user).map (fun u =>
      match u.email with
      | some e => FieldValue.str e
      | none => FieldValue.null)
  | "Advisory", "id" =>
    (v.as_advisory).map (fun a => FieldValue.str a.id)
  | "Advisory", "title" =>
    (v.as_advisory).map (fun a => FieldValue.str a.title)
  | "Advisory", "description" =>
    (v.as_advisory).map (fun a => FieldValue.str a.description)
  | "Advisory", "unixDateReported" =>
    (v.as_advisory).bind (fun a =>
      (chronoMidnightTimestamp a.date.year a.date.month a.date.day).map
        FieldValue.int)
  | "Advisory", "unixDateWithdrawn" =>
    (v.as_advisory).bind (fun a =>
      match a.withdrawn with
      | some date =>
        (chronoMidnightTimestamp date.year date.month date.day).map
          FieldValue.int
      | none => some FieldValue.null)
  | "Advisory", "affectedArch" =>
    (v.as_advisory).map (fun a =>
      match a.affected with
      | some aff => FieldValue.strList aff.arch
      | none => FieldValue.null)
  | "Advisory", "affectedOs" =>
    (v.as_advisory).map (fun a =>
      match a.affected with
      | some aff => FieldValue.strList aff.os
      | none => FieldValue.null)
  | "Advisory", "patchedVersions" =>
    (v.as_advisory).map (fun a => FieldValue.strList a.patched)
  | "Advisory", "unaffectedVersions" =>
    (v.as_advisory).map (fun a => FieldValue.strList a.unaffected)
  | "Advisory", "severity" =>
    (v.as_advisory).map (fun a =>
      match a.severity with
      | some s => FieldValue.str s.str
      | none => FieldValue.null)
  | "AffectedFunctionVersions", "functionPath" =>
    (v.as_affected_function_versions).map (fun afv => FieldValue.str afv.1)
  | "AffectedFunctionVersions", "versions" =>
    (v.as_affected_function_versions).map (fun afv =>
      FieldValue.strList afv.2)
  | "GeigerUnsafety", "forbidsUnsafe" =>
    (v.as_geiger_unsafety).map (fun g => FieldValue.boolean g.forbids)
  | "GeigerCount", "safe" =>
    (v.as_geiger_count).map (fun c => FieldValue.uint c.safe)
  | "GeigerCount", "unsafe" =>
    (v.as_geiger_count).map (fun c => FieldValue.uint c.unsafe_)
  | "GeigerCount", "total" =>
    (v.as_geiger_count).map (fun c => FieldValue.uint (GeigerCount.total c))
  | "GeigerCount", "percentageUnsafe" =>
    (v.as_geiger_count).map (fun c =>
      FieldValue.float64 (GeigerCount.percentageUnsafe c))
  | _, _ => none

/-! ## Neighbor resolution: the `advisoryHistory` edge

The `("Package", "advisoryHistory")` arm of `resolve_neighbors`
(src/indicate/src/adapter.rs, lines 654-720): narrow the vertex to a
package, run `all_advisories_for_package` on the advisory client's
database with the decoded parameters, and wrap every returned advisory as
a vertex.  The parameter decoding (string to `Arch`/`OS`/`Severity`,
panicking on unknown values) happens before this point and is modelled by
passing the already-decoded optional filters. -/

def advisoryHistoryNeighbors (db : List Advisory)
    (include_withdrawn : Bool) (arch os : Option String)
    (min_severity : Option Sev) (v : Vertex) : Option (List Vertex) :=
  (v.as_package).map (fun package =>
    (AdvisoryClient.all_advisories_for_package db package.name
        include_withdrawn arch os min_severity).map Vertex.Advisory)

/-! ## Coercion resolution -/

/-- The per-context body of `resolve_coercion`
(src/indicate/src/adapter.rs, lines 848-886): a context without an active
vertex coerces to `false`; with an active vertex, the target type decides
via the narrowing operations, and any target other than `Repository` and
`GitHubRepository` is the `unreachable!` arm (modelled `none`).  The
source type name is carried but never inspected. -/
def resolve_coercion_one (type_name coerce_to_type : String)
    (active_vertex : Option Vertex) : Option Bool :=
  match active_vertex with
  | none => some false
  | some current_vertex =>
    match type_name, coerce_to_type with
    | _, "Repository" => some (current_vertex.as_repository).isSome
    | _, "GitHubRepository" =>
      some (current_vertex.as_git_hub_repository).isSome
    | _, _ => none

/-- `resolve_coercion` over the whole context stream: the map of the
per-context body, 1:1 and order-preserving.  A context is modelled by its
active vertex. -/
def resolve_coercion (type_name coerce_to_type : String)
    (contexts : List (Option Vertex)) :
    List (Option Vertex × Option Bool) :=
  contexts.map (fun ctx =>
    (ctx, resolve_coercion_one type_name coerce_to_type ctx))

/-! ## Helper lemmas -/

theorem mapLookup_mem {α : Type} (m : List (String × α)) (k : String)
    (v : α) (h : mapLookup m k = some v) : (k, v) ∈ m := by
  induction m with
  | nil => simp [mapLookup] at h
  | cons kv rest ih =>
    obtain ⟨k', v'⟩ := kv
    unfold mapLookup at h
    by_cases hk : k' = k
    · rw [if_pos hk] at h
      obtain rfl := Option.some.inj h
      subst hk
      exact List.mem_cons_self _ _
    · rw [if_neg hk] at h
      exact List.mem_cons_of_mem _ (ih h)

theorem packageQuery_withdrawn_none (name : String)
    (arch os : Option String) (ms : Option Sev) :
    (AdvisoryClient.packageQuery name arch os ms).qWithdrawn = none := by
  cases arch <;> cases os <;> cases ms <;> rfl

theorem matches_withdrawn_none (q : Query) (a : Advisory)
    (h : q.qWithdrawn = none) (hm : q.matches a = true) :
    a.withdrawn = none := by
  by_contra hne
  rcases Option.ne_none_iff_exists'.mp hne with ⟨d, hd⟩
  unfold Query.matches at hm
  rw [h, hd] at hm
  simp at hm

theorem matches_withdrawn_some_true (q : Query) (a : Advisory)
    (h : q.qWithdrawn = some true) (hm : q.matches a = true) :
    a.withdrawn.isSome = true := by
  by_contra hne
  have hd : a.withdrawn = none := Option.not_isSome_iff_eq_none.mp hne
  unfold Query.matches at hm
  rw [h, hd] at hm
  simp at hm

/-! ## Claim C1 -/

/-- C1: for every package (vertex) and every combination of the optional
`arch`, `os` and `minSeverity` filters, the `advisoryHistory` neighbor
resolution with `includeWithdrawn = false` returns only advisory vertices
whose withdrawal date is unset. -/
theorem advisoryHistory_excludes_withdrawn
    (db : List Advisory) (arch os : Option String) (ms : Option Sev)
    (pv : Vertex) (l : List Vertex) (v : Vertex)
    (hres : advisoryHistoryNeighbors db false arch os ms pv = some l)
    (hmem : v ∈ l) :
    ∃ a, v = Vertex.Advisory a ∧ a.withdrawn = none := by
  unfold advisoryHistoryNeighbors at hres
  cases hp : pv.as_package with
  | none => rw [hp] at hres; simp at hres
  | some package =>
    rw [hp] at hres
    simp only [Option.map_some'] at hres
    obtain rfl := Option.some.inj hres
    rcases List.mem_map.mp hmem with ⟨a, ha, rfl⟩
    refine ⟨a, rfl, ?_⟩
    unfold AdvisoryClient.all_advisories_for_package at ha
    simp only [if_neg] at ha
    exact matches_withdrawn_none _ a
      (packageQuery_withdrawn_none package.name arch os ms)
      (List.mem_filter.mp ha).2

def c1Adv : Advisory :=
  ⟨"RUSTSEC-2020-0001", "libfoo", "t", "d", ⟨2020, 1, 2⟩, none, none,
   none, [], []⟩

def c1Db : List Advisory :=
  [c1Adv,
   ⟨"RUSTSEC-2020-0002", "libfoo", "t", "d", ⟨2020, 2, 3⟩,
    some ⟨2021, 1, 1⟩, none, none, [], []⟩]

def c1PkgV : Vertex :=
  Vertex.Package ⟨"id0", "libfoo", "1.0.0", none, none⟩

theorem advisoryHistory_excludes_withdrawn_witness :
    advisoryHistoryNeighbors c1Db false none none none c1PkgV =
      some [Vertex.Advisory c1Adv] ∧
    Vertex.Advisory c1Adv ∈ [Vertex.Advisory c1Adv] ∧
    ∃ a, Vertex.Advisory c1Adv = Vertex.Advisory a ∧ a.withdrawn = none :=
  ⟨by decide, by decide,
   advisoryHistory_excludes_withdrawn c1Db none none none
     c1PkgV [Vertex.Advisory c1Adv] (Vertex.Advisory c1Adv)
     (by decide) (by decide)⟩

/-! ## Claim C5 -/

/-- C5: with the package name and the `arch`, `os` and `minSeverity`
filters fixed, every advisory returned by `all_advisories_for_package`
with `include_withdrawn = false` is also returned with
`include_withdrawn = true`. -/
theorem all_advisories_superset
    (db : List Advisory) (name : String) (arch os : Option String)
    (ms : Option Sev) (a : Advisory)
    (h : a ∈ AdvisoryClient.all_advisories_for_package db name false
        arch os ms) :
    a ∈ AdvisoryClient.all_advisories_for_package db name true
        arch os ms := by
  unfold AdvisoryClient.all_advisories_for_package at h ⊢
  simp only [if_neg] at h
  simp only [if_pos]
  exact List.mem_append_left _ h

def c5Db : List Advisory :=
  [⟨"RUSTSEC-2021-0001", "libbar", "t", "d", ⟨2021, 5, 6⟩, none, none,
    some Sev.high, [], []⟩]

theorem all_advisories_superset_witness :
    (⟨"RUSTSEC-2021-0001", "libbar", "t", "d", ⟨2021, 5, 6⟩, none, none,
      some Sev.high, [], []⟩ : Advisory) ∈
      AdvisoryClient.all_advisories_for_package c5Db "libbar" false
        none none (some Sev.medium) ∧
    (⟨"RUSTSEC-2021-0001", "libbar", "t", "d", ⟨2021, 5, 6⟩, none, none,
      some Sev.high, [], []⟩ : Advisory) ∈
      AdvisoryClient.all_advisories_for_package c5Db "libbar" true
        none none (some Sev.medium) :=
  ⟨by decide,
   all_advisories_superset c5Db "libbar" none none (some Sev.medium) _
     (by decide)⟩

/-! ## Claim C9 -/

/-- C9: with the package name and the filters fixed, the list returned by
`all_advisories_for_package` with `include_withdrawn = true` is the list
returned with `include_withdrawn = false` followed exactly by the results
of the second database query, and that second query returns only
advisories whose withdrawal date is set. -/
theorem all_advisories_withdrawn_appended
    (db : List Advisory) (name : String) (arch os : Option String)
    (ms : Option Sev) :
    AdvisoryClient.all_advisories_for_package db name true arch os ms =
      AdvisoryClient.all_advisories_for_package db name false arch os ms
        ++ Database.query db
          ((AdvisoryClient.packageQuery name arch os ms).withdrawn true) ∧
    (Database.query db
        ((AdvisoryClient.packageQuery name arch os ms).withdrawn
          true)).all (fun a => a.withdrawn.isSome) = true := by
  constructor
  · rfl
  · rw [List.all_eq_true]
    intro a ha
    exact matches_withdrawn_some_true _ a rfl (List.mem_filter.mp ha).2

/-! ## Claim C10 -/

/-- C10: every context of the input stream of `resolve_coercion` whose
active vertex is absent resolves to `false`, for every source type and
every target type, the otherwise-fatal unsupported targets included; the
unsupported-target `unreachable!` is only reachable for a present
vertex. -/
theorem resolve_coercion_absent_vertex
    (type_name coerce_to_type : String) (contexts : List (Option Vertex))
    (i : Nat) (h1 : i < contexts.length)
    (h2 : i < (resolve_coercion type_name coerce_to_type
      contexts).length)
    (hv : contexts.get ⟨i, h1⟩ = none) :
    (resolve_coercion type_name coerce_to_type contexts).get ⟨i, h2⟩ =
      (none, some false) := by
  simp only [resolve_coercion, List.get_eq_getElem, List.getElem_map]
  rw [List.get_eq_getElem] at hv
  rw [hv]
  rfl

theorem resolve_coercion_absent_vertex_witness :
    (resolve_coercion "Package" "Package" [none]).get
        ⟨0, by decide⟩ = (none, some false) :=
  resolve_coercion_absent_vertex "Package" "Package" [none] 0
    (by decide) (by decide) rfl

/-! ## Claim C3 -/

/-- Every vertex the `repository` edge produces is one of the two
repository variants. -/
theorem repository_edge_variant
    (parse : String → Option GitUrlParsed)
    (getRepo : String → String → Option GitHubRepo)
    (url : String) (v : Vertex)
    (h : get_repository_from_url parse getRepo url = some v) :
    (∃ u, v = Vertex.Repository u) ∨
      (∃ r, v = Vertex.GitHubRepository r) := by
  unfold get_repository_from_url at h
  repeat split at h
  all_goals first
    | exact Or.inl ⟨_, (Option.some.inj h).symm⟩
    | exact Or.inr ⟨_, (Option.some.inj h).symm⟩
    | cases h

/-- C3: for every vertex produced by the `repository` edge, coercion to
`Repository` succeeds with `true` exactly for the generic variant and
coercion to `GitHubRepository` exactly for the rich variant; the two
results are complementary booleans (mutually exclusive, exactly one
holds); and any other coercion target aborts instead of resolving to
`false`. -/
theorem repository_coercion_partition
    (parse : String → Option GitUrlParsed)
    (getRepo : String → String → Option GitHubRepo)
    (url : String) (v : Vertex) (type_name other : String)
    (h : get_repository_from_url parse getRepo url = some v)
    (ho1 : other ≠ "Repository") (ho2 : other ≠ "GitHubRepository") :
    (resolve_coercion_one type_name "Repository" (some v) = some true ↔
      ∃ u, v = Vertex.Repository u) ∧
    (resolve_coercion_one type_name "GitHubRepository" (some v) =
        some true ↔ ∃ r, v = Vertex.GitHubRepository r) ∧
    (∃ b : Bool,
      resolve_coercion_one type_name "Repository" (some v) = some b ∧
      resolve_coercion_one type_name "GitHubRepository" (some v) =
        some (!b)) ∧
    resolve_coercion_one type_name other (some v) = none := by
  have hother : resolve_coercion_one type_name other (some v) = none := by
    simp only [resolve_coercion_one]
  rcases repository_edge_variant parse getRepo url v h with
    ⟨u, rfl⟩ | ⟨r, rfl⟩
  · refine ⟨?_, ?_, ⟨true, ?_, ?_⟩, hother⟩ <;>
      simp [resolve_coercion_one, Vertex.as_repository,
        Vertex.as_git_hub_repository]
  · refine ⟨?_, ?_, ⟨false, ?_, ?_⟩, hother⟩ <;>
      simp [resolve_coercion_one, Vertex.as_repository,
        Vertex.as_git_hub_repository]

def c3Parse : String → Option GitUrlParsed :=
  fun _ => some ⟨some "github.com", some "acme", "libfoo"⟩

def c3Lookup : String → String → Option GitHubRepo :=
  fun _ _ => none

def c3Url : String := "https://github.com/acme/libfoo"

theorem repository_coercion_partition_witness :
    get_repository_from_url c3Parse c3Lookup c3Url =
      some (Vertex.Repository c3Url) ∧
    ((resolve_coercion_one "Package" "Repository"
        (some (Vertex.Repository c3Url)) = some true ↔
      ∃ u, Vertex.Repository c3Url = Vertex.Repository u) ∧
    (resolve_coercion_one "Package" "GitHubRepository"
        (some (Vertex.Repository c3Url)) = some true ↔
      ∃ r, Vertex.Repository c3Url = Vertex.GitHubRepository r) ∧
    (∃ b : Bool,
      resolve_coercion_one "Package" "Repository"
        (some (Vertex.Repository c3Url)) = some b ∧
      resolve_coercion_one "Package" "GitHubRepository"
        (some (Vertex.Repository c3Url)) = some (!b)) ∧
    resolve_coercion_one "Package" "Webpage"
      (some (Vertex.Repository c3Url)) = none) :=
  ⟨by decide,
   repository_coercion_partition c3Parse c3Lookup c3Url
     (Vertex.Repository c3Url) "Package" "Webpage" (by decide)
     (by decide) (by decide)⟩

/-! ## Claim C2 -/

def c2Parse : String → Option GitUrlParsed :=
  fun _ => some ⟨some "github.com", none, "cargo-indicate"⟩

def c2Lookup : String → String → Option GitHubRepo :=
  fun _ _ => none

def c2Url : String := "https://github.com/cargo-indicate"

/-- C2 counterexample: a URL that contains `github.com`, parses with host
exactly `github.com` but without an owner, makes the resolver abort
(`panic!("repository {url} had no owner")`) instead of returning the
generic `Repository` vertex carrying the URL, contradicting the claimed
fallback for the missing-owner case. -/
theorem get_repository_missing_owner_panics :
    get_repository_from_url c2Parse c2Lookup c2Url = none ∧
    get_repository_from_url c2Parse c2Lookup c2Url ≠
      some (Vertex.Repository c2Url) := by
  constructor
  · decide
  · decide

/-- C2 (amended): the resolver returns the generic variant carrying the
input URL unchanged when the URL does not contain `github.com`, when
parsing fails, when the parsed host is not exactly `github.com`, or when
the repository lookup fails; it returns the rich variant exactly when
parsing succeeds with host `github.com`, an owner is present and the
lookup succeeds; but when the host is `github.com` and the parsed URL has
no owner it aborts fatally instead of falling back. -/
theorem get_repository_from_url_cases
    (parse : String → Option GitUrlParsed)
    (getRepo : String → String → Option GitHubRepo) (url : String) :
    (strContains url "github.com" = false →
      get_repository_from_url parse getRepo url =
        some (Vertex.Repository url)) ∧
    (parse url = none →
      get_repository_from_url parse getRepo url =
        some (Vertex.Repository url)) ∧
    (∀ gurl, parse url = some gurl → gurl.host ≠ some "github.com" →
      get_repository_from_url parse getRepo url =
        some (Vertex.Repository url)) ∧
    (∀ gurl, strContains url "github.com" = true →
      parse url = some gurl → gurl.host = some "github.com" →
      gurl.owner = none →
      get_repository_from_url parse getRepo url = none) ∧
    (∀ gurl owner, strContains url "github.com" = true →
      parse url = some gurl → gurl.host = some "github.com" →
      gurl.owner = some owner → getRepo owner gurl.name = none →
      get_repository_from_url parse getRepo url =
        some (Vertex.Repository url)) ∧
    (∀ gurl owner fr, strContains url "github.com" = true →
      parse url = some gurl → gurl.host = some "github.com" →
      gurl.owner = some owner → getRepo owner gurl.name = some fr →
      get_repository_from_url parse getRepo url =
        some (Vertex.GitHubRepository fr)) := by
  refine ⟨?_, ?_, ?_, ?_, ?_, ?_⟩
  · intro hc
    simp [get_repository_from_url, hc]
  · intro hp
    simp [get_repository_from_url, hp]
  · intro gurl hp hh
    simp [get_repository_from_url, hp, hh]
  · intro gurl hc hp hh how
    simp [get_repository_from_url, hc, hp, hh, how]
  · intro gurl owner hc hp hh how hr
    simp [get_repository_from_url, hc, hp, hh, how, hr]
  · intro gurl owner fr hc hp hh how hr
    simp [get_repository_from_url, hc, hp, hh, how, hr]

theorem get_repository_from_url_cases_witness :
    strContains c2Url "github.com" = true ∧
    c2Parse c2Url = some ⟨some "github.com", none, "cargo-indicate"⟩ ∧
    get_repository_from_url c2Parse c2Lookup c2Url = none :=
  ⟨by decide, rfl,
   (get_repository_from_url_cases c2Parse c2Lookup c2Url).2.2.2.1
     ⟨some "github.com", none, "cargo-indicate"⟩ (by decide) rfl rfl rfl⟩

/-! ## Claim C8 -/

/-- C8: property resolution of an optional field whose data is absent — a
package without a license, an advisory without a withdrawal date, without
an affected-platform record, or without a severity — yields the null
scalar, not a failure. -/
theorem resolve_property_absent_is_null (p : Pkg) (a : Advisory)
    (hl : p.license = none) (hw : a.withdrawn = none)
    (ha : a.affected = none) (hs : a.severity = none) :
    resolvePropertyV "Package" "license" (Vertex.Package p) =
      some FieldValue.null ∧
    resolvePropertyV "Advisory" "unixDateWithdrawn" (Vertex.Advisory a) =
      some FieldValue.null ∧
    resolvePropertyV "Advisory" "affectedArch" (Vertex.Advisory a) =
      some FieldValue.null ∧
    resolvePropertyV "Advisory" "affectedOs" (Vertex.Advisory a) =
      some FieldValue.null ∧
    resolvePropertyV "Advisory" "severity" (Vertex.Advisory a) =
      some FieldValue.null := by
  obtain ⟨pid, pname, pver, plic, prep⟩ := p
  obtain ⟨aid, apkg, ati, ade, adate, awd, aaff, asev, apat, aun⟩ := a
  simp only at hl hw ha hs
  subst hl
  subst hw
  subst ha
  subst hs
  exact ⟨rfl, rfl, rfl, rfl, rfl⟩

def c8Pkg : Pkg := ⟨"id8", "libbaz", "0.1.0", none, none⟩

def c8Adv : Advisory :=
  ⟨"RUSTSEC-2022-0001", "libbaz", "t", "d", ⟨2022, 3, 4⟩, none, none,
   none, [], []⟩

theorem resolve_property_absent_is_null_witness :
    c8Pkg.license = none ∧ c8Adv.withdrawn = none ∧
    c8Adv.affected = none ∧ c8Adv.severity = none ∧
    (resolvePropertyV "Package" "license" (Vertex.Package c8Pkg) =
      some FieldValue.null ∧
    resolvePropertyV "Advisory" "unixDateWithdrawn"
      (Vertex.Advisory c8Adv) = some FieldValue.null ∧
    resolvePropertyV "Advisory" "affectedArch" (Vertex.Advisory c8Adv) =
      some FieldValue.null ∧
    resolvePropertyV "Advisory" "affectedOs" (Vertex.Advisory c8Adv) =
      some FieldValue.null ∧
    resolvePropertyV "Advisory" "severity" (Vertex.Advisory c8Adv) =
      some FieldValue.null) :=
  ⟨rfl, rfl, rfl, rfl,
   resolve_property_absent_is_null c8Pkg c8Adv rfl rfl rfl rfl⟩

/-! ## Lemmas about the id-to-vertex expansion -/

theorem collectVertices_total (pkgs : PackageMap) :
    ∀ ids : List String,
      (∀ id ∈ ids, ∃ p, mapLookup pkgs id = some p) →
      ∃ l, collectVertices pkgs ids = some l := by
  intro ids
  induction ids with
  | nil => exact fun _ => ⟨[], rfl⟩
  | cons id rest ih =>
    intro h
    rcases h id (List.mem_cons_self id rest) with ⟨p, hp⟩
    rcases ih (fun x hx => h x (List.mem_cons_of_mem _ hx)) with ⟨l, hl⟩
    exact ⟨Vertex.Package p :: l, by simp [collectVertices, hp, hl]⟩

theorem collectVertices_length_get (pkgs : PackageMap) :
    ∀ (ids : List String) (l : List Vertex),
      collectVertices pkgs ids = some l →
      l.length = ids.length ∧
      ∀ i (h1 : i < ids.length) (h2 : i < l.length),
        ∃ p, mapLookup pkgs (ids.get ⟨i, h1⟩) = some p ∧
          l.get ⟨i, h2⟩ = Vertex.Package p := by
  intro ids
  induction ids with
  | nil =>
    intro l h
    simp only [collectVertices, Option.some.injEq] at h
    subst h
    refine ⟨rfl, ?_⟩
    intro i h1 h2
    exact absurd h1 (by simp)
  | cons id rest ih =>
    intro l h
    unfold collectVertices at h
    cases hp : mapLookup pkgs id with
    | none => rw [hp] at h; cases h
    | some p =>
      rw [hp] at h
      cases hr : collectVertices pkgs rest with
      | none => rw [hr] at h; cases h
      | some rl =>
        rw [hr] at h
        simp only [Option.map_some'] at h
        obtain rfl := Option.some.inj h
        refine ⟨by simpa using (ih rl hr).1, ?_⟩
        intro i h1 h2
        cases i with
        | zero => exact ⟨p, hp, rfl⟩
        | succ j =>
          have h1' : j < rest.length := by simpa using h1
          have h2' : j < rl.length := by simpa using h2
          exact (ih rl hr).2 j h1' h2'

theorem collectVertices_mem (pkgs : PackageMap) :
    ∀ (ids : List String) (l : List Vertex),
      collectVertices pkgs ids = some l →
      ∀ id ∈ ids, ∀ p, mapLookup pkgs id = some p →
        Vertex.Package p ∈ l := by
  intro ids
  induction ids with
  | nil =>
    intro l h id hid
    simp at hid
  | cons id0 rest ih =>
    intro l h id hid p hp
    unfold collectVertices at h
    cases hm : mapLookup pkgs id0 with
    | none => rw [hm] at h; cases h
    | some q =>
      rw [hm] at h
      cases hr : collectVertices pkgs rest with
      | none => rw [hr] at h; cases h
      | some rl =>
        rw [hr] at h
        simp only [Option.map_some'] at h
        obtain rfl := Option.some.inj h
        rcases List.mem_cons.mp hid with rfl | hmem
        · rw [hm] at hp
          obtain rfl := Option.some.inj hp
          exact List.mem_cons_self _ _
        · exact List.mem_cons_of_mem _ (ih rl hr id hmem p hp)

/-- The predicate "is the package vertex with this id". -/
def isPkgWithId (rid : String) : Vertex → Bool
  | .Package p => p.id == rid
  | _ => false

theorem collectVertices_countP (pkgs : PackageMap) (rid : String)
    (hinv : ∀ k p, mapLookup pkgs k = some p → p.id = k) :
    ∀ (ids : List String) (l : List Vertex),
      collectVertices pkgs ids = some l →
      l.countP (isPkgWithId rid) = ids.count rid := by
  intro ids
  induction ids with
  | nil =>
    intro l h
    simp only [collectVertices, Option.some.injEq] at h
    subst h
    rfl
  | cons id rest ih =>
    intro l h
    unfold collectVertices at h
    cases hm : mapLookup pkgs id with
    | none => rw [hm] at h; cases h
    | some q =>
      rw [hm] at h
      cases hr : collectVertices pkgs rest with
      | none => rw [hr] at h; cases h
      | some rl =>
        rw [hr] at h
        simp only [Option.map_some'] at h
        obtain rfl := Option.some.inj h
        have hqid : q.id = id := hinv id q hm
        rw [List.countP_cons, List.count_cons, ih rl hr]
        simp [isPkgWithId, hqid]

/-! ## Lemmas about the maps built by `parse_metadata` -/

theorem foldl_mapInsert_id_inv (ps : List Pkg) :
    ∀ m0 : PackageMap, (∀ kv ∈ m0, (kv.2).id = kv.1) →
      ∀ kv ∈ ps.foldl (fun m p => mapInsert m p.id p) m0,
        (kv.2).id = kv.1 := by
  induction ps with
  | nil => intro m0 h kv hkv; exact h kv hkv
  | cons p rest ih =>
    intro m0 h kv hkv
    refine ih (mapInsert m0 p.id p) ?_ kv hkv
    intro kv2 hkv2
    rcases List.mem_cons.mp hkv2 with rfl | hm
    · rfl
    · exact h kv2 hm

/-- In the package map built by `parse_metadata`, the id of every stored
package equals its key. -/
theorem parse_metadata_packages_id (md : Metadata) (pm : PackageMap)
    (dd : DirectDependencyMap) (h : parse_metadata md = some (pm, dd)) :
    ∀ k p, mapLookup pm k = some p → p.id = k := by
  intro k p hl
  have hpm : pm = md.packages.foldl (fun m q => mapInsert m q.id q) [] := by
    unfold parse_metadata at h
    cases hres : md.resolve with
    | none => rw [hres] at h; cases h
    | some r =>
      rw [hres] at h
      simp only [Option.some.injEq, Prod.mk.injEq] at h
      exact h.1.symm
  have hmem : (k, p) ∈ md.packages.foldl
      (fun m q => mapInsert m q.id q) [] :=
    hpm ▸ mapLookup_mem pm k p hl
  exact foldl_mapInsert_id_inv md.packages []
    (fun kv hkv => absurd hkv (by simp)) (k, p) hmem

/-! ## Claim C6 -/

/-- The `("Package", "dependencies")` arm of `resolve_neighbors`
(src/indicate/src/adapter.rs, lines 621-637): narrow the vertex to a
package (`unwrap`) and expand its recorded direct dependencies through
`get_dependencies`. -/
def dependenciesNeighbors (packages : PackageMap)
    (direct_dependencies : DirectDependencyMap) (v : Vertex) :
    Option (List Vertex) :=
  (v.as_package).bind (fun package =>
    IndicateAdapter.get_dependencies packages direct_dependencies
      package.id)

/-- C6: for a package vertex whose id is a key of the direct-dependency
map (and whose recorded dependency ids all resolve), the `dependencies`
neighbor resolution yields exactly one neighbor per recorded entry, in
the recorded order, each being the package looked up by the
corresponding dependency id. -/
theorem dependencies_neighbors_in_recorded_order
    (packages : PackageMap) (direct_dependencies : DirectDependencyMap)
    (p : Pkg) (dependency_ids : List String)
    (hdd : mapLookup direct_dependencies p.id = some dependency_ids)
    (hall : ∀ id ∈ dependency_ids, ∃ q, mapLookup packages id = some q) :
    ∃ l, dependenciesNeighbors packages direct_dependencies
        (Vertex.Package p) = some l ∧
      l.length = dependency_ids.length ∧
      ∀ i (h1 : i < dependency_ids.length) (h2 : i < l.length),
        ∃ q, mapLookup packages (dependency_ids.get ⟨i, h1⟩) = some q ∧
          l.get ⟨i, h2⟩ = Vertex.Package q := by
  rcases collectVertices_total packages dependency_ids hall with ⟨l, hl⟩
  refine ⟨l, ?_,
    (collectVertices_length_get packages dependency_ids l hl).1,
    (collectVertices_length_get packages dependency_ids l hl).2⟩
  simp [dependenciesNeighbors, Vertex.as_package,
    IndicateAdapter.get_dependencies, hdd, hl]

def c6Root : Pkg := ⟨"a", "app", "1.0.0", none, none⟩

def c6Dep : Pkg := ⟨"b", "libfoo", "2.1.0", none, none⟩

def c6Packages : PackageMap := [("a", c6Root), ("b", c6Dep)]

def c6DirectDeps : DirectDependencyMap := [("a", ["b"])]

theorem dependencies_neighbors_in_recorded_order_witness :
    mapLookup c6DirectDeps c6Root.id = some ["b"] ∧
    (∀ id ∈ ["b"], ∃ q, mapLookup c6Packages id = some q) ∧
    ∃ l, dependenciesNeighbors c6Packages c6DirectDeps
        (Vertex.Package c6Root) = some l ∧
      l.length = (["b"] : List String).length ∧
      ∀ i (h1 : i < (["b"] : List String).length) (h2 : i < l.length),
        ∃ q, mapLookup c6Packages ((["b"] : List String).get ⟨i, h1⟩) =
            some q ∧ l.get ⟨i, h2⟩ = Vertex.Package q :=
  ⟨rfl,
   fun id hid => by
     obtain rfl := List.mem_singleton.mp hid
     exact ⟨c6Dep, rfl⟩,
   dependencies_neighbors_in_recorded_order c6Packages c6DirectDeps
     c6Root ["b"] rfl
     (fun id hid => by
       obtain rfl := List.mem_singleton.mp hid
       exact ⟨c6Dep, rfl⟩)⟩

/-! ## Claim C4 -/

/-- C4: for a snapshot with resolution data and a resolvable root, the
`RootPackage` starting edge yields exactly the one root-package vertex;
`Dependencies` with `includeRoot = false` yields one vertex per resolved
non-root node — every resolved package except the root, never a vertex
with the root id; and `Dependencies` with `includeRoot = true` (for a
root listed once among the resolved nodes, as the dependency graph always
lists it) yields one vertex per resolved node, the root id appearing
exactly once. -/
theorem starting_vertices_root_and_dependencies
    (md : Metadata) (ad : IndicateAdapter) (r : Resolve)
    (rootId : String) (rp : Pkg)
    (hA : IndicateAdapter.fromMetadata md = some ad)
    (hres : md.resolve = some r)
    (hroot : r.root = some rootId)
    (hrp : md.rootPackage = some rp)
    (hkeys : ∀ n ∈ r.nodes, ∃ p, mapLookup ad.packages n.id = some p) :
    ad.resolve_starting_vertices "RootPackage" none =
      some [Vertex.Package rp] ∧
    (∃ l, ad.resolve_starting_vertices "Dependencies" (some false) =
        some l ∧
      l.length = ((r.nodes.map (fun n => n.id)).filter
        (fun pid => pid != rootId)).length ∧
      l.countP (isPkgWithId rootId) = 0 ∧
      (∀ n ∈ r.nodes, n.id ≠ rootId → ∀ p,
        mapLookup ad.packages n.id = some p → Vertex.Package p ∈ l)) ∧
    ((r.nodes.map (fun n => n.id)).count rootId = 1 →
      ∃ l, ad.resolve_starting_vertices "Dependencies" (some true) =
          some l ∧
        l.length = r.nodes.length ∧
        l.countP (isPkgWithId rootId) = 1) := by
  cases hpm : parse_metadata md with
  | none => rw [IndicateAdapter.fromMetadata, hpm] at hA; cases hA
  | some pd =>
    obtain ⟨pm, dd⟩ := pd
    rw [IndicateAdapter.fromMetadata, hpm] at hA
    simp only [Option.map_some'] at hA
    obtain rfl := Option.some.inj hA
    have hinv := parse_metadata_packages_id md pm dd hpm
    refine ⟨?_, ?_, ?_⟩
    · simp [IndicateAdapter.resolve_starting_vertices,
        IndicateAdapter.root_package, hrp]
    · have hkeys2 : ∀ id ∈ (r.nodes.map (fun n => n.id)).filter
          (fun pid => pid != rootId), ∃ p, mapLookup pm id = some p := by
        intro id hid
        rcases List.mem_map.mp (List.mem_filter.mp hid).1 with ⟨n, hn, rfl⟩
        exact hkeys n hn
      rcases collectVertices_total pm _ hkeys2 with ⟨l, hl⟩
      refine ⟨l, ?_, ?_, ?_, ?_⟩
      · simp [IndicateAdapter.resolve_starting_vertices,
          IndicateAdapter.dependencies, hres, hroot, hl]
      · exact (collectVertices_length_get pm _ l hl).1
      · rw [collectVertices_countP pm rootId hinv _ l hl]
        refine List.count_eq_zero.mpr ?_
        intro hmemf
        have h2 := (List.mem_filter.mp hmemf).2
        simp at h2
      · intro n hn hne p hp
        refine collectVertices_mem pm _ l hl n.id ?_ p hp
        refine List.mem_filter.mpr ⟨List.mem_map_of_mem _ hn, ?_⟩
        simpa using hne
    · intro hcount
      have hkeys3 : ∀ id ∈ r.nodes.map (fun n => n.id),
          ∃ p, mapLookup pm id = some p := by
        intro id hid
        rcases List.mem_map.mp hid with ⟨n, hn, rfl⟩
        exact hkeys n hn
      rcases collectVertices_total pm _ hkeys3 with ⟨l, hl⟩
      refine ⟨l, ?_, ?_, ?_⟩
      · simp [IndicateAdapter.resolve_starting_vertices,
          IndicateAdapter.dependencies, hres, hl]
      · rw [(collectVertices_length_get pm _ l hl).1, List.length_map]
      · rw [collectVertices_countP pm rootId hinv _ l hl, hcount]

def c4Root : Pkg := ⟨"ra", "app", "1.0.0", none, none⟩

def c4Dep : Pkg := ⟨"rb", "libfoo", "2.1.0", none, none⟩

def c4Resolve : Resolve :=
  ⟨[⟨"ra", ["rb"]⟩, ⟨"rb", []⟩], some "ra"⟩

def c4Md : Metadata := ⟨[c4Root, c4Dep], some c4Resolve⟩

def c4Adapter : IndicateAdapter :=
  ⟨c4Md, [("rb", c4Dep), ("ra", c4Root)], [("rb", []), ("ra", ["rb"])]⟩

theorem starting_vertices_root_and_dependencies_witness :
    IndicateAdapter.fromMetadata c4Md = some c4Adapter ∧
    (c4Adapter.resolve_starting_vertices "RootPackage" none =
      some [Vertex.Package c4Root] ∧
    (∃ l, c4Adapter.resolve_starting_vertices "Dependencies"
        (some false) = some l ∧
      l.length = ((c4Resolve.nodes.map (fun n => n.id)).filter
        (fun pid => pid != "ra")).length ∧
      l.countP (isPkgWithId "ra") = 0 ∧
      (∀ n ∈ c4Resolve.nodes, n.id ≠ "ra" → ∀ p,
        mapLookup c4Adapter.packages n.id = some p →
          Vertex.Package p ∈ l)) ∧
    ((c4Resolve.nodes.map (fun n => n.id)).count "ra" = 1 →
      ∃ l, c4Adapter.resolve_starting_vertices "Dependencies"
          (some true) = some l ∧
        l.length = c4Resolve.nodes.length ∧
        l.countP (isPkgWithId "ra") = 1)) :=
  ⟨rfl,
   starting_vertices_root_and_dependencies c4Md c4Adapter c4Resolve
     "ra" c4Root rfl rfl rfl rfl
     (fun n hn => by
       fin_cases hn
       · exact ⟨c4Root, rfl⟩
       · exact ⟨c4Dep, rfl⟩)⟩

/-! ## Calendar lemmas for claim C7 -/

theorem leapsUpTo_succ (k : Nat) :
    leapsUpTo (k + 1) = leapsUpTo k + (if isLeap (k + 1) then 1 else 0) := by
  unfold leapsUpTo
  split
  · rename_i hL
    unfold isLeap at hL
    simp only [Bool.or_eq_true, Bool.and_eq_true, beq_iff_eq,
      bne_iff_ne, ne_eq] at hL
    omega
  · rename_i hL
    unfold isLeap at hL
    simp only [Bool.or_eq_true, Bool.and_eq_true, beq_iff_eq,
      bne_iff_ne, ne_eq] at hL
    push_neg at hL
    omega

theorem yearSum_eq (n : Nat) :
    ((List.range n).map (fun i => daysInYear (1970 + i))).sum +
      leapsUpTo 1969 = 365 * n + leapsUpTo (1969 + n) := by
  induction n with
  | zero => simp
  | succ k ih =>
    rw [List.range_succ, List.map_append, List.sum_append]
    simp only [List.map_cons, List.map_nil, List.sum_cons, List.sum_nil]
    have hs := leapsUpTo_succ (1969 + k)
    have he : 1969 + k + 1 = 1969 + (k + 1) := by omega
    rw [he] at hs
    have he2 : 1970 + k = 1969 + (k + 1) := by omega
    rw [he2]
    have hD : daysInYear (1969 + (k + 1)) =
        if isLeap (1969 + (k + 1)) then 366 else 365 := rfl
    rw [hD]
    by_cases hL : isLeap (1969 + (k + 1)) = true
    · rw [if_pos hL] at hs ⊢
      omega
    · rw [if_neg hL] at hs ⊢
      omega

theorem monthSum_eq (y m : Nat) (hm1 : 1 ≤ m) (hm2 : m ≤ 12) :
    ((List.range (m - 1)).map (fun j => daysInMonth y (j + 1))).sum =
      cumDays m + (if 2 < m ∧ isLeap y then 1 else 0) := by
  interval_cases m <;>
    by_cases hL : isLeap y = true <;>
      simp [List.range_succ, daysInMonth, cumDays, hL]

theorem daysFromCE_eq_epoch (y m d : Nat) (h70 : 1970 ≤ y) (hm1 : 1 ≤ m)
    (hm2 : m ≤ 12) (hd1 : 1 ≤ d) :
    daysFromCE y m d = daysSinceUnixEpoch y m d + 719163 := by
  unfold daysFromCE daysSinceUnixEpoch dayOfYear
  have hB := yearSum_eq (y - 1970)
  have he : 1969 + (y - 1970) = y - 1 := by omega
  rw [he] at hB
  have hC := monthSum_eq y m hm1 hm2
  have hL69 : leapsUpTo 1969 = 477 := by norm_num [leapsUpTo]
  by_cases hA : 2 < m ∧ isLeap y = true
  · rw [if_pos hA] at hC
    rw [if_pos hA]
    omega
  · rw [if_neg hA] at hC
    rw [if_neg hA]
    omega

/-- The `chrono` composition the adapter uses agrees with the
specification reading "the Unix timestamp of the date-only date at
00:00:00 UTC" on every valid date from 1970 on. -/
theorem chronoMidnight_eq_unixMidnight (y m d : Nat) (h70 : 1970 ≤ y)
    (hm1 : 1 ≤ m) (hm2 : m ≤ 12) (hd1 : 1 ≤ d)
    (hd2 : d ≤ daysInMonth y m) :
    chronoMidnightTimestamp y m d = some (unixMidnightUTC y m d) := by
  unfold chronoMidnightTimestamp unixMidnightUTC
  rw [daysFromCE_eq_epoch y m d h70 hm1 hm2 hd1]
  have hv : validYmd y m d = true := by
    unfold validYmd
    simp only [Bool.and_eq_true, decide_eq_true_eq]
    exact ⟨⟨⟨hm1, hm2⟩, hd1⟩, hd2⟩
  rw [hv]
  rw [if_pos rfl]
  refine congrArg some ?_
  omega

/-! ## Claim C7 -/

/-- C7: for an advisory carrying a valid date from 1970 on, the
`unixDateReported` property is the Unix timestamp of the date-only
disclosure date at 00:00:00 UTC, and when a (valid) withdrawal date is
present the `unixDateWithdrawn` property is the Unix timestamp of the
date-only withdrawal date at 00:00:00 UTC. -/
theorem advisory_dates_midnight_utc (a : Advisory) (y m d : Nat)
    (hdate : a.date = ⟨y, m, d⟩) (h70 : 1970 ≤ y) (hm1 : 1 ≤ m)
    (hm2 : m ≤ 12) (hd1 : 1 ≤ d) (hd2 : d ≤ daysInMonth y m) :
    resolvePropertyV "Advisory" "unixDateReported" (Vertex.Advisory a) =
      some (FieldValue.int (unixMidnightUTC y m d)) ∧
    (∀ y2 m2 d2 : Nat, a.withdrawn = some ⟨y2, m2, d2⟩ → 1970 ≤ y2 →
      1 ≤ m2 → m2 ≤ 12 → 1 ≤ d2 → d2 ≤ daysInMonth y2 m2 →
      resolvePropertyV "Advisory" "unixDateWithdrawn"
          (Vertex.Advisory a) =
        some (FieldValue.int (unixMidnightUTC y2 m2 d2))) := by
  obtain ⟨aid, apkg, ati, ade, adate, awd, aaff, asev, apat, aun⟩ := a
  simp only at hdate
  subst hdate
  constructor
  · show (chronoMidnightTimestamp y m d).map FieldValue.int = _
    rw [chronoMidnight_eq_unixMidnight y m d h70 hm1 hm2 hd1 hd2]
    rfl
  · intro y2 m2 d2 hw h70b hm1b hm2b hd1b hd2b
    simp only at hw
    subst hw
    show (chronoMidnightTimestamp y2 m2 d2).map FieldValue.int = _
    rw [chronoMidnight_eq_unixMidnight y2 m2 d2 h70b hm1b hm2b hd1b hd2b]
    rfl

def c7Adv : Advisory :=
  ⟨"RUSTSEC-2020-0005", "libqux", "t", "d", ⟨2020, 1, 2⟩,
   some ⟨2021, 3, 4⟩, none, none, [], []⟩

set_option maxRecDepth 8192 in
theorem advisory_dates_midnight_utc_witness :
    c7Adv.date = ⟨2020, 1, 2⟩ ∧
    c7Adv.withdrawn = some ⟨2021, 3, 4⟩ ∧
    unixMidnightUTC 2020 1 2 = 1577923200 ∧
    resolvePropertyV "Advisory" "unixDateReported"
        (Vertex.Advisory c7Adv) =
      some (FieldValue.int (unixMidnightUTC 2020 1 2)) ∧
    resolvePropertyV "Advisory" "unixDateWithdrawn"
        (Vertex.Advisory c7Adv) =
      some (FieldValue.int (unixMidnightUTC 2021 3 4)) :=
  ⟨rfl, rfl, by decide,
   (advisory_dates_midnight_utc c7Adv 2020 1 2 rfl (by decide)
     (by decide) (by decide) (by decide) (by decide)).1,
   (advisory_dates_midnight_utc c7Adv 2020 1 2 rfl (by decide)
     (by decide) (by decide) (by decide) (by decide)).2
     2021 3 4 rfl (by decide) (by decide) (by decide) (by decide)
     (by decide)⟩

end Indicate
